import Mathlib

/-!
Verification of the semantic retrieval engine of the agent_backend repository.

The development shallowly embeds the Python sources:
  - `embeddings.py`   : report text derivation, vector normalization, the
    FAISS-index synchronizer `build_index`, and `search_similar`;
  - `agents/search_agent.py` : the consolidated search pipeline
    `search_agent_query` (planner fallback, vector search, filter
    intersection);
  - `agents/supervisor.py`   : the tool-output merge of `supervisor_node`;
  - `agent.py`        : the sequential tool-result intersection of
    `process_tool_results`.

External collaborators (the Gemini embedding model, the LLM planner, the
storage-backed filter tools) are parameters: a collaborator that can raise
is modelled as a function into `Option`, with `none` standing for a raised
exception.  Python dictionaries that are only read through `get`/`in` are
modelled as association lists in which the most recent binding shadows
older ones; this is observationally equal to dict assignment for every
access the sources perform.  String trimming and the single-character
`replace` of the sources are re-implemented structurally over the
character list so that all definitions reduce in the kernel.
-/

namespace AgentBackend

/-- Lookup in a python-dict modelled as an association list: the most
recent (leftmost) binding wins, exactly as the latest dict assignment
wins in Python. -/
def dictGet (c : List (String × String)) (k : String) : Option String :=
  (c.find? (fun p => p.1 == k)).map (fun p => p.2)

/-- Python dict assignment `c[k] = v`: the new binding shadows any older
binding for `k`.  Since the caches in `embeddings.py` are only read via
`dictGet` (membership and item access), this is observationally faithful. -/
def dictInsert (c : List (String × String)) (k v : String) : List (String × String) :=
  (k, v) :: c

/-- The content fields of a report read by `build_report_text`
(`embeddings.py` lines 43-52).  A missing key of the Python dict is
`none`. -/
structure ReportContent where
  title : Option String
  description : Option String
  category : Option String
  severity : Option String
  suggestedFix : Option String
deriving DecidableEq

/-- A report record: `_id` plus the `content` and `aiDraft` bags. -/
structure Report where
  id : String
  content : ReportContent
  aiDraft : ReportContent
deriving DecidableEq

/-- Python `a or b or ""` on optional strings: the first value that is
neither `None` nor the empty string, else the empty string. -/
def pyOrStr (a b : Option String) : String :=
  match a with
  | some s => if s = "" then (match b with
      | some t => if t = "" then "" else t
      | none => "") else s
  | none => match b with
      | some t => if t = "" then "" else t
      | none => ""

/-- Python `s.replace("_", " ")` for the single-character pattern used in
`build_report_text`: a character map. -/
def pyReplaceUnderscore (s : String) : String :=
  ⟨s.data.map (fun c => if c = '_' then ' ' else c)⟩

/-- Python `s.strip()`: drop whitespace from both ends, implemented
structurally on the character list. -/
def pyStrip (s : String) : String :=
  ⟨((s.data.dropWhile Char.isWhitespace).reverse.dropWhile Char.isWhitespace).reverse⟩

/-- `build_report_text` (`embeddings.py` lines 38-55): derive the
canonical searchable text of a report.  The debug print is I/O and not
modelled. -/
def buildReportText (r : Report) : String :=
  let title := pyOrStr r.content.title r.aiDraft.title
  let description := pyOrStr r.content.description r.aiDraft.description
  let category := pyReplaceUnderscore (pyOrStr r.content.category r.aiDraft.category)
  let severity := pyOrStr r.content.severity r.aiDraft.severity
  let fix := pyOrStr r.content.suggestedFix r.aiDraft.suggestedFix
  pyStrip (title ++ ". " ++ category ++ ". " ++ severity ++ " severity. "
    ++ description ++ " " ++ fix)

/-- The process-wide mutable state of `embeddings.py`: `_index` (a FAISS
flat inner-product index, i.e. the list of stored vectors, or `none`
before creation), `_id_map`, and `_text_cache`.  The vector type `V` is a
parameter so that control-flow facts can be proved once for every scalar
type. -/
structure IndexState (V : Type) where
  index : Option (List V)
  idMap : List String
  textCache : List (String × String)
deriving DecidableEq

/-- Result of one `build_index` call: the returned count (`none` when the
embedding collaborator raised and the exception propagated), the state of
the module globals afterwards, and the list of texts sent to the
embedding collaborator (`[]` when no embedding call was made). -/
structure BuildResult (V : Type) where
  ret : Option Nat
  state : IndexState V
  embedded : List String
deriving DecidableEq

/-- The dirty-record scan of `build_index` (`embeddings.py` lines 76-82):
a record is re-embedded when `force_rebuild` is set, its id is absent
from the fingerprint cache, or its cached text differs from the freshly
derived text. -/
def dirtyRecords (cache : List (String × String)) (forceRebuild : Bool)
    (reports : List Report) : List (String × String) :=
  reports.filterMap (fun r =>
    let text := buildReportText r
    if forceRebuild = true ∨ dictGet cache r.id ≠ some text then some (r.id, text)
    else none)

/-- `build_index` (`embeddings.py` lines 65-113).  `embed` is the
embedding collaborator (`model.aembed_documents`); `none` models a raised
exception, which the source does not catch.  `normalize` abstracts
`normalize_vectors` (instantiated with the real normalizer over `ℝ`
below).  The translation preserves the statement order of the source: on
the rebuild path the globals are reassigned before the embedding call is
made. -/
def buildIndex (V : Type) (normalize : List V → List V)
    (embed : List String → Option (List V))
    (reports : List Report) (forceRebuild : Bool) (s : IndexState V) : BuildResult V :=
  if reports.isEmpty then ⟨some 0, s, []⟩
  else
    let toEmbed0 := dirtyRecords s.textCache forceRebuild reports
    if toEmbed0.isEmpty ∧ s.index.isSome then ⟨some s.idMap.length, s, []⟩
    else
      let s1 : IndexState V :=
        if forceRebuild = true ∨ s.index.isNone then ⟨some [], [], []⟩ else s
      let toEmbed : List (String × String) :=
        if forceRebuild = true ∨ s.index.isNone then
          reports.map (fun r => (r.id, buildReportText r))
        else toEmbed0
      if toEmbed.isEmpty then ⟨some s1.idMap.length, s1, []⟩
      else
        let texts := toEmbed.map (fun p => p.2)
        match embed texts with
        | none => ⟨none, s1, texts⟩
        | some vecs =>
          let s2 : IndexState V :=
            ⟨some (s1.index.getD [] ++ normalize vecs),
             s1.idMap ++ toEmbed.map (fun p => p.1),
             toEmbed.foldl (fun c p => dictInsert c p.1 p.2) s1.textCache⟩
          ⟨some s2.idMap.length, s2, texts⟩

/-- `get_index_size` (`embeddings.py` lines 155-158). -/
def indexSize {V : Type} (s : IndexState V) : Nat :=
  match s.index with
  | some vecs => vecs.length
  | none => 0

/-- Inner product of two vectors, the similarity measure of the
`IndexFlatIP` index. -/
def dot {K : Type} [Mul K] [AddCommMonoid K] (a b : List K) : K :=
  ((a.zip b).map (fun p => p.1 * p.2)).sum

/-- Insert a scored entry into a list that is sorted by descending
score, keeping earlier entries first on ties. -/
def insertByScore {K : Type} [LinearOrder K] (p : Nat × K) :
    List (Nat × K) → List (Nat × K)
  | [] => [p]
  | q :: qs => if q.2 < p.2 then p :: q :: qs else q :: insertByScore p qs

/-- Sort scored entries by descending score (the order in which the
flat inner-product index returns its results). -/
def sortByScoreDesc {K : Type} [LinearOrder K] (l : List (Nat × K)) : List (Nat × K) :=
  l.foldr insertByScore []

/-- Exact search of the flat index: score every stored vector against
the query by inner product and return the best `k` (position, score)
pairs in descending-score order. -/
def indexSearch {K : Type} [LinearOrder K] [Mul K] [AddCommMonoid K]
    (vecs : List (List K)) (q : List K) (k : Nat) : List (Nat × K) :=
  (sortByScoreDesc (vecs.enum.map (fun p => (p.1, dot q p.2)))).take k

/-- `search_similar` (`embeddings.py` lines 116-152).  `embedQuery` is
the query-embedding collaborator (`none` models a raised exception, which
propagates), `normalize` abstracts `normalize_vectors` applied to the
one-row query matrix.  An absent or empty index short-circuits to an
empty result before any collaborator call, as in the source.  Two source
details are vacuous here and not modelled: the `idx >= 0` guard (faiss
pads with -1 only when `k > ntotal`, impossible since
`k = min(top_k, ntotal)`), and the raising `_id_map[idx]` lookup, which
is total (`getD`) in the model because every returned position is below
`ntotal` and the sources keep `_id_map` in step with the index. -/
def searchSimilar {K : Type} [LinearOrder K] [Mul K] [AddCommMonoid K]
    (normalize : List (List K) → List (List K))
    (embedQuery : String → Option (List K))
    (s : IndexState (List K)) (query : String) (topK : Nat) (threshold : K) :
    Option (List (String × K)) :=
  match s.index with
  | none => some []
  | some vecs =>
    if vecs.length = 0 then some []
    else
      match embedQuery query with
      | none => none
      | some qe =>
        let qv := (normalize [qe]).headD []
        let k := min topK vecs.length
        let res := indexSearch vecs qv k
        some ((res.filter (fun p => threshold ≤ p.2)).map
          (fun p => (s.idMap.getD p.1 "", p.2)))

/-- The tool-output merge of `supervisor_node` (`supervisor.py` lines
36-48): collect the `matching_ids` lists of the tool outputs, keep only
the non-empty ones, and intersect them.  The Python result is
`list(set.intersection(...))`; it is modelled as a list with the same
members (set membership is all the sources and the claims observe of
it). -/
def supervisorMerge (outputs : List (List String)) : List String :=
  let candidateLists := outputs.filter (fun l => !l.isEmpty)
  match candidateLists with
  | [] => []
  | l :: ls => ls.foldl (fun acc l2 => acc.filter (fun x => l2.contains x)) l

/-- One step of `process_tool_results` (`agent.py` lines 92-117): the
first tool result becomes the base; later results are intersected into
the accumulator, preserving its order.  An empty accumulator is
indistinguishable from "no base yet". -/
def processToolStep (matchingIds newIds : List String) : List String :=
  if matchingIds.isEmpty then newIds else matchingIds.filter (fun i => newIds.contains i)

/-- The accumulated effect of `process_tool_results` over the sequence of
tool results of one agent run, starting from the initial empty
`matching_ids` of `run_search` (`agent.py` lines 163-167). -/
def processToolFold (results : List (List String)) : List String :=
  results.foldl processToolStep []

/-- The filter-intersection of `search_agent_query` (`search_agent.py`
lines 110 and 116) and of `search_specialist_node`: keep the candidates
that are in the filter match set, in their original order. -/
def applyFilter (matchingIds : List String) (filterIds : List String) : List String :=
  matchingIds.filter (fun i => filterIds.contains i)

/-- The squared L2 norm of a vector: the sum of the squares of its
entries. -/
def sumSq (v : List ℝ) : ℝ := (v.map (fun x => x * x)).sum

/-- The L2 norm computed by `np.linalg.norm` for one row. -/
noncomputable def l2norm (v : List ℝ) : ℝ := Real.sqrt (sumSq v)

/-- One row of `normalize_vectors` (`embeddings.py` lines 58-62): divide
the row by its L2 norm, with a zero norm replaced by 1 to avoid division
by zero (`norms[norms == 0] = 1`). -/
noncomputable def normalizeRow (v : List ℝ) : List ℝ :=
  v.map (fun x => x / (if l2norm v = 0 then 1 else l2norm v))

/-- `normalize_vectors` (`embeddings.py` lines 58-62): row-wise
normalization of a matrix (`axis=1`, `keepdims=True`, broadcast
division). -/
noncomputable def normalizeVectors (m : List (List ℝ)) : List (List ℝ) :=
  m.map normalizeRow

/-- `build_index` instantiated with real vectors and the real normalizer,
exactly as the source composes them (`embeddings.py` line 104). -/
noncomputable def buildIndexReal
    (embed : List String → Option (List (List ℝ)))
    (reports : List Report) (forceRebuild : Bool) (s : IndexState (List ℝ)) :
    BuildResult (List ℝ) :=
  buildIndex (List ℝ) normalizeVectors embed reports forceRebuild s

/-- A Python value as produced by `json.loads`, restricted to the shapes
the search-agent pipeline inspects: strings, objects, `None`, and a
collapsed constructor for every other JSON value (arrays, numbers,
booleans), whose payload the pipeline never reads before crashing. -/
inductive PyVal where
  | pyStr (s : String)
  | pyDict (entries : List (String × PyVal))
  | pyNone
  | pyOther

/-- Lookup in a parsed JSON object, first binding wins. -/
def pyDictGet (entries : List (String × PyVal)) (k : String) (default : PyVal) : PyVal :=
  match entries.find? (fun p => p.1 == k) with
  | some p => p.2
  | none => default

/-- Python `v.get(k, default)`: succeeds on a dict, raises
`AttributeError` (modelled as `none`) on any other value. -/
def pyGetOrCrash (v : PyVal) (k : String) (default : PyVal) : Option PyVal :=
  match v with
  | .pyDict entries => some (pyDictGet entries k default)
  | _ => none

/-- Python truthiness of the values the pipeline tests. -/
def PyVal.truthy : PyVal → Bool
  | .pyStr s => !(s == "")
  | .pyDict entries => !entries.isEmpty
  | .pyNone => false
  | .pyOther => true

/-- One conditional filter application of `search_agent_query`
(`search_agent.py` lines 107-117): if the extracted filter value is
truthy, invoke the filter tool with it and intersect; a truthy value that
is not a string crashes the tool invocation (`none`). -/
def applyPlanFilter (ids : List String) (v : PyVal)
    (filterFn : String → List String) : Option (List String) :=
  if v.truthy then
    match v with
    | .pyStr s => some (applyFilter ids (filterFn s))
    | _ => none
  else some ids

/-- Outcome of the planner try-block of `search_agent_query`
(`search_agent.py` lines 75-91): `failure` when `llm.invoke` raised or
`json.loads` raised on the cleaned response (any exception inside the
try), `parsed v` when `json.loads` returned the value `v`. -/
inductive PlannerResult where
  | failure
  | parsed (v : PyVal)

/-- The fallback search plan assigned in the except-branch
(`search_agent.py` lines 87-91). -/
def fallbackPlan (query : String) : PyVal :=
  .pyDict [("semantic_query", .pyStr query),
           ("filters", .pyDict []),
           ("reasoning", .pyStr "Direct search - could not parse structured intent")]

/-- The value returned by `search_agent_query`.  The Python result
carries a dict of scores rounded to three decimals; rounding is display
formatting and is not modelled, the raw (id, score) pairs are kept. -/
structure SearchAgentResult (K : Type) where
  matchingIds : List String
  summary : String
  reasoning : PyVal
  totalReports : Nat
  matchCount : Nat
  scores : List (String × K)

/-- `search_agent_query` (`search_agent.py` lines 33-133).  Collaborators
are parameters: `planner` is the intent-extraction try-block,
`embedBatch`/`embedQuery` the embedding service of `build_index` and
`search_similar`, `severityFilter`/`categoryFilter` the storage-backed
filter tools (returning the `matching_ids` of their result dicts).  The
vector search always uses the raw `query` (line 98) with `top_k = 15` and
the default threshold `0.5`; `none` models an uncaught exception
anywhere after the planner try-block. -/
def searchAgentQuery {K : Type} [LinearOrderedField K]
    (normalize : List (List K) → List (List K))
    (embedBatch : List String → Option (List (List K)))
    (embedQuery : String → Option (List K))
    (planner : String → PlannerResult)
    (severityFilter : String → List String)
    (categoryFilter : String → List String)
    (reports : List Report) (s : IndexState (List K)) (query : String) :
    Option (SearchAgentResult K × IndexState (List K)) :=
  let searchPlan : PyVal :=
    match planner query with
    | .failure => fallbackPlan query
    | .parsed v => v
  let b := buildIndex (List K) normalize embedBatch reports false s
  match b.ret with
  | none => none
  | some _ =>
    match searchSimilar normalize embedQuery b.state query 15 (1 / 2 : K) with
    | none => none
    | some searchResults =>
      let matchingIds0 := searchResults.map (fun p => p.1)
      match pyGetOrCrash searchPlan "filters" (.pyDict []) with
      | none => none
      | some filtersVal =>
        match pyGetOrCrash filtersVal "severity" .pyNone with
        | none => none
        | some sevVal =>
          match applyPlanFilter matchingIds0 sevVal severityFilter with
          | none => none
          | some ids1 =>
            match pyGetOrCrash filtersVal "category" .pyNone with
            | none => none
            | some catVal =>
              match applyPlanFilter ids1 catVal categoryFilter with
              | none => none
              | some ids2 =>
                let summary :=
                  if !ids2.isEmpty then
                    "Found " ++ toString ids2.length ++ " reports matching your search."
                  else
                    "No reports found matching \x27" ++ query ++ "\x27."
                some (⟨ids2, summary,
                       (pyGetOrCrash searchPlan "reasoning" (.pyStr "")).getD (.pyStr ""),
                       reports.length, ids2.length, searchResults⟩, b.state)

theorem dictGet_dictInsert_self (c : List (String × String)) (k v : String) :
    dictGet (dictInsert c k v) k = some v := by
  simp [dictGet, dictInsert, List.find?_cons_of_pos]

theorem dictGet_dictInsert_ne (c : List (String × String)) (k v k2 : String)
    (h : k2 ≠ k) : dictGet (dictInsert c k v) k2 = dictGet c k2 := by
  simp only [dictGet, dictInsert]
  rw [List.find?_cons_of_neg]
  simp [Ne.symm h]

theorem dictGet_foldl_of_not_mem (l : List (String × String))
    (c : List (String × String)) (k : String) (h : ∀ p ∈ l, p.1 ≠ k) :
    dictGet (l.foldl (fun c2 p => dictInsert c2 p.1 p.2) c) k = dictGet c k := by
  induction l generalizing c with
  | nil => rfl
  | cons p l ih =>
    simp only [List.foldl_cons]
    rw [ih _ (fun q hq => h q (List.mem_cons_of_mem p hq))]
    exact dictGet_dictInsert_ne _ _ _ _ (Ne.symm (h p (List.mem_cons_self p l)))

theorem dictGet_foldl_of_mem (l : List (String × String))
    (c : List (String × String)) (k v : String)
    (hnd : (l.map Prod.fst).Nodup) (hm : (k, v) ∈ l) :
    dictGet (l.foldl (fun c2 p => dictInsert c2 p.1 p.2) c) k = some v := by
  induction l generalizing c with
  | nil => cases hm
  | cons p l ih =>
    simp only [List.foldl_cons]
    rcases List.mem_cons.mp hm with h | h
    · have hk : p.1 = k := by rw [← h]
      have hout : ∀ q ∈ l, q.1 ≠ k := by
        intro q hq he
        have : p.1 ∈ l.map Prod.fst := by
          rw [hk, ← he]; exact List.mem_map_of_mem Prod.fst hq
        exact (List.nodup_cons.mp hnd).1 this
      rw [dictGet_foldl_of_not_mem l _ k hout, ← h]
      exact dictGet_dictInsert_self c k v
    · exact ih _ (List.nodup_cons.mp hnd).2 h

theorem of_mem_dirtyRecords {cache : List (String × String)} {fr : Bool}
    {reports : List Report} {p : String × String}
    (hp : p ∈ dirtyRecords cache fr reports) :
    ∃ r ∈ reports, p = (r.id, buildReportText r) ∧
      (fr = true ∨ dictGet cache r.id ≠ some (buildReportText r)) := by
  obtain ⟨r, hr, he⟩ := List.mem_filterMap.mp hp
  by_cases hd : fr = true ∨ dictGet cache r.id ≠ some (buildReportText r)
  · refine ⟨r, hr, ?_, hd⟩
    simp only [if_pos hd] at he
    exact (Option.some_injective _ he).symm
  · simp only [if_neg hd] at he
    cases he

theorem mem_dirtyRecords {cache : List (String × String)} {fr : Bool}
    {reports : List Report} {r : Report} (hr : r ∈ reports)
    (hd : fr = true ∨ dictGet cache r.id ≠ some (buildReportText r)) :
    (r.id, buildReportText r) ∈ dirtyRecords cache fr reports := by
  refine List.mem_filterMap.mpr ⟨r, hr, ?_⟩
  simp only [if_pos hd]

theorem dirtyRecords_eq_nil {cache : List (String × String)} {fr : Bool}
    {reports : List Report} (h : dirtyRecords cache fr reports = []) :
    ∀ r ∈ reports, fr = false ∧ dictGet cache r.id = some (buildReportText r) := by
  intro r hr
  have hnone := List.filterMap_eq_nil_iff.mp h r hr
  by_cases hd : fr = true ∨ dictGet cache r.id ≠ some (buildReportText r)
  · simp only [if_pos hd] at hnone; cases hnone
  · push_neg at hd
    exact ⟨Bool.not_eq_true fr |>.mp hd.1, hd.2⟩

theorem dirtyRecords_eq_nil_of {cache : List (String × String)}
    {reports : List Report}
    (h : ∀ r ∈ reports, dictGet cache r.id = some (buildReportText r)) :
    dirtyRecords cache false reports = [] := by
  refine List.filterMap_eq_nil_iff.mpr (fun r hr => ?_)
  rw [if_neg]
  push_neg
  exact ⟨by simp, h r hr⟩

theorem filterMap_some_eq_map {α β : Type} (g : α → β) (l : List α) :
    List.filterMap (fun a => some (g a)) l = l.map g := by
  induction l with
  | nil => rfl
  | cons a l ih => simp only [List.filterMap_cons, List.map_cons, ih]

theorem dirtyRecords_force (cache : List (String × String)) (reports : List Report) :
    dirtyRecords cache true reports =
      reports.map (fun r => (r.id, buildReportText r)) := by
  unfold dirtyRecords
  have : ∀ r : Report,
      (let text := buildReportText r
       if (true : Bool) = true ∨ dictGet cache r.id ≠ some text then
         some (r.id, text) else none) = some (r.id, buildReportText r) := by
    intro r
    exact if_pos (Or.inl rfl)
  calc List.filterMap (fun r =>
        let text := buildReportText r
        if (true : Bool) = true ∨ dictGet cache r.id ≠ some text then
          some (r.id, text) else none) reports
      = List.filterMap (fun r => some (r.id, buildReportText r)) reports := by
        rw [List.filterMap_congr (fun r _ => this r)]
    _ = reports.map (fun r => (r.id, buildReportText r)) :=
        filterMap_some_eq_map _ reports

theorem dirtyRecords_keys_sublist (cache : List (String × String)) (fr : Bool)
    (reports : List Report) :
    ((dirtyRecords cache fr reports).map Prod.fst).Sublist (reports.map Report.id) := by
  induction reports with
  | nil => simp [dirtyRecords]
  | cons r l ih =>
    unfold dirtyRecords
    rw [List.filterMap_cons]
    by_cases hd : fr = true ∨ dictGet cache r.id ≠ some (buildReportText r)
    · simp only [if_pos hd, List.map_cons]
      exact List.Sublist.cons₂ _ ih
    · simp only [if_neg hd, List.map_cons]
      exact List.Sublist.cons _ ih

theorem buildIndex_nil (V : Type) (nz : List V → List V)
    (e : List String → Option (List V)) (fr : Bool) (s : IndexState V) :
    buildIndex V nz e [] fr s = ⟨some 0, s, []⟩ := rfl

theorem buildIndex_noop {V : Type} {nz : List V → List V}
    {e : List String → Option (List V)} {reports : List Report} {fr : Bool}
    {s : IndexState V}
    (hne : reports ≠ []) (hd : dirtyRecords s.textCache fr reports = [])
    (hidx : s.index.isSome = true) :
    buildIndex V nz e reports fr s = ⟨some s.idMap.length, s, []⟩ := by
  simp only [buildIndex]
  rw [if_neg (by simp [hne]), if_pos (by simp [hd, hidx])]

theorem buildIndex_incremental {V : Type} {nz : List V → List V}
    {e : List String → Option (List V)} {reports : List Report}
    {s : IndexState V} {vecs : List V}
    (hne : reports ≠ []) (hidx : s.index = some vecs)
    (hd : dirtyRecords s.textCache false reports ≠ []) :
    buildIndex V nz e reports false s =
      match e ((dirtyRecords s.textCache false reports).map (fun p => p.2)) with
      | none => ⟨none, s, (dirtyRecords s.textCache false reports).map (fun p => p.2)⟩
      | some vs =>
        ⟨some (s.idMap.length + (dirtyRecords s.textCache false reports).length),
         ⟨some (vecs ++ nz vs),
          s.idMap ++ (dirtyRecords s.textCache false reports).map (fun p => p.1),
          (dirtyRecords s.textCache false reports).foldl
            (fun c p => dictInsert c p.1 p.2) s.textCache⟩,
         (dirtyRecords s.textCache false reports).map (fun p => p.2)⟩ := by
  have hrebuild : ¬((false : Bool) = true ∨ s.index.isNone = true) := by
    simp [hidx]
  simp only [buildIndex]
  rw [if_neg (by simp [hne]), if_neg (by simp [hd]), if_neg hrebuild, if_neg hrebuild,
    if_neg (by simp [hd])]
  cases he : e ((dirtyRecords s.textCache false reports).map (fun p => p.2)) with
  | none => simp [he]
  | some vs => simp [he, hidx]

theorem buildIndex_rebuild {V : Type} {nz : List V → List V}
    {e : List String → Option (List V)} {reports : List Report} {fr : Bool}
    {s : IndexState V}
    (hne : reports ≠ []) (hcond : fr = true ∨ s.index = none) :
    buildIndex V nz e reports fr s =
      match e (reports.map buildReportText) with
      | none => ⟨none, ⟨some [], [], []⟩, reports.map buildReportText⟩
      | some vs =>
        ⟨some reports.length,
         ⟨some (nz vs), reports.map Report.id,
          (reports.map (fun r => (r.id, buildReportText r))).foldl
            (fun c p => dictInsert c p.1 p.2) []⟩,
         reports.map buildReportText⟩ := by
  have hre : (fr = true ∨ s.index.isNone = true) := by
    rcases hcond with h | h
    · exact Or.inl h
    · exact Or.inr (by simp [h])
  have hguard2 : ¬((dirtyRecords s.textCache fr reports).isEmpty = true ∧
      s.index.isSome = true) := by
    rintro ⟨h1, h2⟩
    rcases hcond with h | h
    · rw [h, dirtyRecords_force] at h1
      simp [hne] at h1
    · rw [h] at h2
      cases h2
  simp only [buildIndex]
  rw [if_neg (by simp [hne]), if_neg hguard2, if_pos hre, if_pos hre,
    if_neg (by simp [hne])]
  have htexts : (reports.map (fun r => (r.id, buildReportText r))).map
      (fun p : String × String => p.2) = reports.map buildReportText := by
    rw [List.map_map]; rfl
  have hids : (reports.map (fun r => (r.id, buildReportText r))).map
      (fun p : String × String => p.1) = reports.map Report.id := by
    rw [List.map_map]; rfl
  rw [htexts]
  cases he : e (reports.map buildReportText) with
  | none => simp [he]
  | some vs => simp [he, hids]

theorem buildIndex_index_isSome {V : Type} {nz : List V → List V}
    {e : List String → Option (List V)} {reports : List Report} {fr : Bool}
    {s : IndexState V} {n : Nat}
    (hne : reports ≠ []) (hret : (buildIndex V nz e reports fr s).ret = some n) :
    (buildIndex V nz e reports fr s).state.index.isSome = true := by
  by_cases hreb : fr = true ∨ s.index = none
  · rw [buildIndex_rebuild hne hreb] at hret ⊢
    cases he : e (reports.map buildReportText) with
    | none => rw [he] at hret; cases hret
    | some vs => rfl
  · push_neg at hreb
    obtain ⟨hfr, hsome⟩ := hreb
    obtain ⟨vecs, hvecs⟩ := Option.ne_none_iff_exists.mp hsome
    have hfr2 : fr = false := Bool.not_eq_true fr |>.mp hfr
    subst hfr2
    by_cases hd : dirtyRecords s.textCache false reports = []
    · rw [buildIndex_noop hne hd (by rw [← hvecs]; rfl)]
      rw [← hvecs]; rfl
    · rw [buildIndex_incremental hne hvecs.symm hd] at hret ⊢
      cases he : e ((dirtyRecords s.textCache false reports).map (fun p => p.2)) with
      | none => rw [he] at hret; cases hret
      | some vs => rfl

theorem buildIndex_cache_of_success {V : Type} {nz : List V → List V}
    {e : List String → Option (List V)} {reports : List Report} {fr : Bool}
    {s : IndexState V} {n : Nat}
    (hnd : (reports.map Report.id).Nodup) (hne : reports ≠ [])
    (hret : (buildIndex V nz e reports fr s).ret = some n) :
    ∀ r ∈ reports,
      dictGet (buildIndex V nz e reports fr s).state.textCache r.id
        = some (buildReportText r) := by
  intro r hr
  by_cases hreb : fr = true ∨ s.index = none
  · rw [buildIndex_rebuild hne hreb] at hret ⊢
    cases he : e (reports.map buildReportText) with
    | none => rw [he] at hret; cases hret
    | some vs =>
      dsimp only
      refine dictGet_foldl_of_mem _ _ _ _ ?_ ?_
      · rw [List.map_map]
        exact hnd
      · exact List.mem_map_of_mem _ hr
  · push_neg at hreb
    obtain ⟨hfr, hsome⟩ := hreb
    obtain ⟨vecs, hvecs⟩ := Option.ne_none_iff_exists.mp hsome
    have hfr2 : fr = false := Bool.not_eq_true fr |>.mp hfr
    subst hfr2
    by_cases hd : dirtyRecords s.textCache false reports = []
    · rw [buildIndex_noop hne hd (by rw [← hvecs]; rfl)]
      exact (dirtyRecords_eq_nil hd r hr).2
    · rw [buildIndex_incremental hne hvecs.symm hd] at hret ⊢
      have hkeys : ((dirtyRecords s.textCache false reports).map Prod.fst).Nodup :=
        (dirtyRecords_keys_sublist s.textCache false reports).nodup hnd
      cases he : e ((dirtyRecords s.textCache false reports).map (fun p => p.2)) with
      | none => rw [he] at hret; cases hret
      | some vs =>
        dsimp only
        by_cases hdirty : dictGet s.textCache r.id = some (buildReportText r)
        · refine Eq.trans (dictGet_foldl_of_not_mem _ _ _ ?_) hdirty
          intro p hp hpe
          obtain ⟨r2, hr2, hpe2, hdirty2⟩ := of_mem_dirtyRecords hp
          have hid : r2.id = r.id := by rw [hpe2] at hpe; exact hpe
          have : r2 = r := List.inj_on_of_nodup_map hnd hr2 hr hid
          subst this
          rcases hdirty2 with h | h
          · cases h
          · exact h hdirty
        · exact dictGet_foldl_of_mem _ _ _ _ hkeys
            (mem_dirtyRecords hr (Or.inr hdirty))

/-- Concrete test report with an identifier and a title only. -/
def reportTitled (i t : String) : Report :=
  ⟨i, ⟨some t, none, none, none, none⟩, ⟨none, none, none, none, none⟩⟩

/-- Concrete embedding collaborator that always succeeds, returning one
vector per text. -/
def embedConst : List String → Option (List Nat) :=
  fun ts => some (ts.map (fun _ => 0))

/-- Concrete embedding collaborator that always raises. -/
def embedFail : List String → Option (List Nat) :=
  fun _ => none

/-- C1 counterexample: with `forceRebuild = true` the globals are cleared
before the embedding call, so a failing call leaves the freshly cleared
state, not the previous index, id map and fingerprint cache. -/
theorem claim1_counterexample :
    (buildIndex Nat id embedFail [reportTitled "b" "light"] true
      ⟨some [7], ["a"], [("a", "t")]⟩).ret = none ∧
    (buildIndex Nat id embedFail [reportTitled "b" "light"] true
      ⟨some [7], ["a"], [("a", "t")]⟩).state = ⟨some [], [], []⟩ ∧
    (⟨some [], [], []⟩ : IndexState Nat) ≠ ⟨some [7], ["a"], [("a", "t")]⟩ := by
  decide

/-- C1 (amended): on the incremental path (`forceRebuild = false` with an
existing index) a failed embedding call leaves the previous index, id map
and fingerprint cache fully intact; the source mutates the globals only
after the embedding call returns. -/
theorem claim1_atomic_failure {V : Type} (nz : List V → List V)
    (e : List String → Option (List V)) (reports : List Report)
    (s : IndexState V)
    (hidx : s.index.isSome = true)
    (hfail : (buildIndex V nz e reports false s).ret = none) :
    (buildIndex V nz e reports false s).state = s := by
  by_cases hne : reports = []
  · subst hne
    rw [buildIndex_nil] at hfail
    cases hfail
  · obtain ⟨vecs, hvecs⟩ := Option.isSome_iff_exists.mp hidx
    by_cases hd : dirtyRecords s.textCache false reports = []
    · rw [buildIndex_noop hne hd hidx] at hfail
      cases hfail
    · rw [buildIndex_incremental hne hvecs hd] at hfail ⊢
      cases he : e ((dirtyRecords s.textCache false reports).map (fun p => p.2)) with
      | none => rfl
      | some vs =>
        rw [he] at hfail
        cases hfail

/-- C1 witness: concrete incremental run with a failing embedding
collaborator, the previous state survives unchanged. -/
theorem claim1_witness :
    (buildIndex Nat id embedFail [reportTitled "b" "light"] false
      ⟨some [7], ["a"], [("a", "t")]⟩).state = ⟨some [7], ["a"], [("a", "t")]⟩ :=
  claim1_atomic_failure id embedFail [reportTitled "b" "light"]
    ⟨some [7], ["a"], [("a", "t")]⟩ (by decide) (by decide)

/-- C2 counterexample: re-synchronizing a record whose text changed is
not rejected: the call succeeds (returns 2) and the identifier `a` gets a
second index entry. -/
theorem claim2_counterexample :
    (buildIndex Nat id embedConst [reportTitled "a" "x"] false
      ⟨some [5], ["a"], [("a", "old")]⟩).state.idMap = ["a", "a"] ∧
    (buildIndex Nat id embedConst [reportTitled "a" "x"] false
      ⟨some [5], ["a"], [("a", "old")]⟩).ret = some 2 := by
  decide

/-- C2 (amended): a second insert for an identifier already present in
the id map is not rejected with an error: when the embedding collaborator
succeeds the call returns normally and the identifier afterwards occurs
more than once in the id map. -/
theorem claim2_duplicate_not_rejected {V : Type} (nz : List V → List V)
    (e : List String → Option (List V)) (r : Report) (reports : List Report)
    (s : IndexState V) (n : Nat)
    (hidx : s.index.isSome = true)
    (hr : r ∈ reports)
    (hchanged : dictGet s.textCache r.id ≠ some (buildReportText r))
    (hold : r.id ∈ s.idMap)
    (hret : (buildIndex V nz e reports false s).ret = some n) :
    1 < ((buildIndex V nz e reports false s).state.idMap.count r.id) := by
  have hne : reports ≠ [] := List.ne_nil_of_mem hr
  obtain ⟨vecs, hvecs⟩ := Option.isSome_iff_exists.mp hidx
  have hmem : (r.id, buildReportText r) ∈ dirtyRecords s.textCache false reports :=
    mem_dirtyRecords hr (Or.inr hchanged)
  have hd : dirtyRecords s.textCache false reports ≠ [] :=
    List.ne_nil_of_mem hmem
  rw [buildIndex_incremental hne hvecs hd] at hret ⊢
  cases he : e ((dirtyRecords s.textCache false reports).map (fun p => p.2)) with
  | none =>
    rw [he] at hret
    cases hret
  | some vs =>
    dsimp only
    rw [List.count_append]
    have h1 : 0 < s.idMap.count r.id := List.count_pos_iff.mpr hold
    have h2 : 0 < ((dirtyRecords s.textCache false reports).map
        (fun p => p.1)).count r.id := by
      refine List.count_pos_iff.mpr ?_
      exact List.mem_map_of_mem (fun p => p.1) hmem
    omega

/-- C2 witness: concrete run in which the changed record `a` is embedded
again and ends up twice in the id map. -/
theorem claim2_witness :
    1 < ((buildIndex Nat id embedConst [reportTitled "a" "x"] false
      ⟨some [5], ["a"], [("a", "old")]⟩).state.idMap.count "a") :=
  claim2_duplicate_not_rejected id embedConst (reportTitled "a" "x")
    [reportTitled "a" "x"] ⟨some [5], ["a"], [("a", "old")]⟩ 2
    (by decide) (by decide) (by decide) (by decide) (by decide)

/-- C4 counterexample: `build_index` with an empty record list returns 0
immediately, even with `forceRebuild = true`: the previous index, id map
and fingerprint cache are not discarded. -/
theorem claim4_counterexample :
    buildIndex Nat id embedConst [] true ⟨some [7], ["a"], [("a", "t")]⟩
      = ⟨some 0, ⟨some [7], ["a"], [("a", "t")]⟩, []⟩ ∧
    (⟨some [7], ["a"], [("a", "t")]⟩ : IndexState Nat).idMap ≠ [] := by
  decide

/-- C4 (amended): for every NON-EMPTY record list, `forceRebuild = true`
discards the current index, id map and fingerprint cache (the result does
not depend on the starting state) and treats every record as new: the
embedding collaborator is called on the canonical text of every record,
and on success the id map is exactly the list of record identifiers. -/
theorem claim4_force_rebuild {V : Type} (nz : List V → List V)
    (e : List String → Option (List V)) (reports : List Report)
    (s s2 : IndexState V)
    (hne : reports ≠ []) :
    buildIndex V nz e reports true s = buildIndex V nz e reports true s2 ∧
    (buildIndex V nz e reports true s).embedded = reports.map buildReportText ∧
    ((buildIndex V nz e reports true s).ret = none ∨
      (buildIndex V nz e reports true s).state.idMap = reports.map Report.id) := by
  rw [buildIndex_rebuild hne (Or.inl rfl), buildIndex_rebuild hne (Or.inl rfl)]
  refine ⟨rfl, ?_, ?_⟩
  · cases he : e (reports.map buildReportText) with
    | none => rfl
    | some vs => rfl
  · cases he : e (reports.map buildReportText) with
    | none => exact Or.inl rfl
    | some vs => exact Or.inr rfl

/-- C4 witness: two different starting states, one record; the rebuild
results coincide, all records are embedded, the id map is rebuilt. -/
theorem claim4_witness :
    buildIndex Nat id embedConst [reportTitled "b" "light"] true
        ⟨some [7], ["a"], [("a", "t")]⟩
      = buildIndex Nat id embedConst [reportTitled "b" "light"] true ⟨none, [], []⟩ ∧
    (buildIndex Nat id embedConst [reportTitled "b" "light"] true
      ⟨some [7], ["a"], [("a", "t")]⟩).embedded
        = [reportTitled "b" "light"].map buildReportText ∧
    ((buildIndex Nat id embedConst [reportTitled "b" "light"] true
        ⟨some [7], ["a"], [("a", "t")]⟩).ret = none ∨
      (buildIndex Nat id embedConst [reportTitled "b" "light"] true
        ⟨some [7], ["a"], [("a", "t")]⟩).state.idMap
          = [reportTitled "b" "light"].map Report.id) :=
  claim4_force_rebuild id embedConst [reportTitled "b" "light"]
    ⟨some [7], ["a"], [("a", "t")]⟩ ⟨none, [], []⟩ (by decide)

/-- C6 counterexample.  Part 1: with an EMPTY record list, `build_index`
returns 0 rather than the current index size (here 1), so the second call
of the claimed idempotence property does not return the current size.
Part 2: with a record list containing the SAME identifier twice with
different texts, the second synchronization of an unchanged record set
embeds again (the cached fingerprint can only hold one of the two texts)
and grows the index from 2 to 3 entries. -/
theorem claim6_counterexample :
    (buildIndex Nat id embedConst [] false ⟨some [3], ["a"], [("a", "t")]⟩
      = ⟨some 0, ⟨some [3], ["a"], [("a", "t")]⟩, []⟩ ∧
     (⟨some [3], ["a"], [("a", "t")]⟩ : IndexState Nat).idMap.length = 1) ∧
    ((buildIndex Nat id embedConst [reportTitled "a" "x", reportTitled "a" "y"] false
        (buildIndex Nat id embedConst [reportTitled "a" "x", reportTitled "a" "y"] false
          ⟨none, [], []⟩).state).embedded ≠ [] ∧
     (buildIndex Nat id embedConst [reportTitled "a" "x", reportTitled "a" "y"] false
        (buildIndex Nat id embedConst [reportTitled "a" "x", reportTitled "a" "y"] false
          ⟨none, [], []⟩).state).ret = some 3 ∧
     (buildIndex Nat id embedConst [reportTitled "a" "x", reportTitled "a" "y"] false
        ⟨none, [], []⟩).ret = some 2) := by
  decide

/-- C6 (amended): for every NON-EMPTY record list with pairwise-distinct
identifiers, after a successful `build_index` call a second call with the
same records (`forceRebuild` false) makes no embedding-collaborator call
(`embedded = []`, for ANY collaborator), returns the current size, and
leaves the whole state unchanged. -/
theorem claim6_idempotent {V : Type} (nz : List V → List V)
    (e e2 : List String → Option (List V)) (reports : List Report)
    (s : IndexState V) (n : Nat)
    (hne : reports ≠ []) (hnd : (reports.map Report.id).Nodup)
    (hret : (buildIndex V nz e reports false s).ret = some n) :
    buildIndex V nz e2 reports false (buildIndex V nz e reports false s).state
      = ⟨some (buildIndex V nz e reports false s).state.idMap.length,
         (buildIndex V nz e reports false s).state, []⟩ := by
  apply buildIndex_noop hne
  · exact dirtyRecords_eq_nil_of (buildIndex_cache_of_success hnd hne hret)
  · exact buildIndex_index_isSome hne hret

/-- C6 witness: concrete first build of one record, the second build is a
no-op returning the current size with no embedding call. -/
theorem claim6_witness :
    buildIndex Nat id embedFail [reportTitled "a" "x"] false
        (buildIndex Nat id embedConst [reportTitled "a" "x"] false ⟨none, [], []⟩).state
      = ⟨some (buildIndex Nat id embedConst [reportTitled "a" "x"] false
            ⟨none, [], []⟩).state.idMap.length,
         (buildIndex Nat id embedConst [reportTitled "a" "x"] false ⟨none, [], []⟩).state,
         []⟩ :=
  claim6_idempotent id embedConst embedFail [reportTitled "a" "x"] ⟨none, [], []⟩ 1
    (by decide) (by decide) (by decide)

/-- C10: incremental re-embedding appends without removing.  Part 1
(general): on a successful incremental `build_index` over an existing
index, the new id map is the old one with the dirty identifiers appended,
the returned count is the old length plus the number of dirty records,
and a changed record whose identifier was already present occurs more
than once in the id map afterwards.  Part 2 (concrete): `search_similar`
over an index whose id map holds `a` twice returns `a` twice with two
different scores. -/
theorem claim10_stale_retention :
    (∀ (V : Type) (nz : List V → List V) (e : List String → Option (List V))
       (r : Report) (reports : List Report) (s : IndexState V) (n : Nat),
       s.index.isSome = true →
       (buildIndex V nz e reports false s).ret = some n →
       r ∈ reports →
       dictGet s.textCache r.id ≠ some (buildReportText r) →
       ((buildIndex V nz e reports false s).state.idMap
          = s.idMap ++ (dirtyRecords s.textCache false reports).map (fun p => p.1) ∧
        n = s.idMap.length + (dirtyRecords s.textCache false reports).length ∧
        (r.id ∈ s.idMap →
          1 < ((buildIndex V nz e reports false s).state.idMap.count r.id)))) ∧
    searchSimilar (K := ℤ) id (fun _ => some [1]) ⟨some [[2], [1]], ["a", "a"], []⟩
      "q" 2 0 = some [("a", 2), ("a", 1)] := by
  constructor
  · intro V nz e r reports s n hidx hret hr hchanged
    have hne : reports ≠ [] := List.ne_nil_of_mem hr
    obtain ⟨vecs, hvecs⟩ := Option.isSome_iff_exists.mp hidx
    have hmem : (r.id, buildReportText r) ∈ dirtyRecords s.textCache false reports :=
      mem_dirtyRecords hr (Or.inr hchanged)
    have hd : dirtyRecords s.textCache false reports ≠ [] :=
      List.ne_nil_of_mem hmem
    rw [buildIndex_incremental hne hvecs hd] at hret ⊢
    cases he : e ((dirtyRecords s.textCache false reports).map (fun p => p.2)) with
    | none =>
      rw [he] at hret
      cases hret
    | some vs =>
      rw [he] at hret
      refine ⟨rfl, ?_, ?_⟩
      · exact (Option.some_injective _ hret).symm
      · intro hold
        dsimp only
        rw [List.count_append]
        have h1 : 0 < s.idMap.count r.id := List.count_pos_iff.mpr hold
        have h2 : 0 < ((dirtyRecords s.textCache false reports).map
            (fun p => p.1)).count r.id :=
          List.count_pos_iff.mpr (List.mem_map_of_mem (fun p => p.1) hmem)
        omega
  · decide

/-- C10 witness: concrete incremental run; the changed record `c` is
appended, the count doubles, the size is old length plus dirty count. -/
theorem claim10_witness :
    (buildIndex Nat id embedConst [reportTitled "c" "new"] false
      ⟨some [4, 9], ["c", "z"], [("c", "old"), ("z", "zz")]⟩).state.idMap
        = ["c", "z"] ++ (dirtyRecords [("c", "old"), ("z", "zz")] false
            [reportTitled "c" "new"]).map (fun p => p.1) ∧
    3 = (["c", "z"] : List String).length + (dirtyRecords [("c", "old"), ("z", "zz")] false
          [reportTitled "c" "new"]).length ∧
    ("c" ∈ (["c", "z"] : List String) →
      1 < ((buildIndex Nat id embedConst [reportTitled "c" "new"] false
        ⟨some [4, 9], ["c", "z"], [("c", "old"), ("z", "zz")]⟩).state.idMap.count "c")) :=
  claim10_stale_retention.1 Nat id embedConst (reportTitled "c" "new")
    [reportTitled "c" "new"] ⟨some [4, 9], ["c", "z"], [("c", "old"), ("z", "zz")]⟩ 3
    (by decide) (by decide) (by decide) (by decide)

theorem mem_insertByScore {K : Type} [LinearOrder K] (p x : Nat × K)
    (l : List (Nat × K)) : x ∈ insertByScore p l ↔ x = p ∨ x ∈ l := by
  induction l with
  | nil => simp [insertByScore]
  | cons q qs ih =>
    unfold insertByScore
    by_cases h : q.2 < p.2
    · simp [h]
    · rw [if_neg h]
      simp only [List.mem_cons, ih]
      tauto

theorem pairwise_insertByScore {K : Type} [LinearOrder K] (p : Nat × K)
    (l : List (Nat × K)) (hl : l.Pairwise (fun a b => b.2 ≤ a.2)) :
    (insertByScore p l).Pairwise (fun a b => b.2 ≤ a.2) := by
  induction l with
  | nil => simp [insertByScore]
  | cons q qs ih =>
    unfold insertByScore
    by_cases h : q.2 < p.2
    · rw [if_pos h]
      refine List.pairwise_cons.mpr ⟨?_, hl⟩
      intro x hx
      rcases List.mem_cons.mp hx with h1 | h1
      · subst h1
        exact le_of_lt h
      · exact le_trans ((List.pairwise_cons.mp hl).1 x h1) (le_of_lt h)
    · rw [if_neg h]
      refine List.pairwise_cons.mpr ⟨?_, ih (List.pairwise_cons.mp hl).2⟩
      intro x hx
      rcases (mem_insertByScore p x qs).mp hx with h1 | h1
      · subst h1
        exact not_lt.mp h
      · exact (List.pairwise_cons.mp hl).1 x h1

theorem length_insertByScore {K : Type} [LinearOrder K] (p : Nat × K)
    (l : List (Nat × K)) : (insertByScore p l).length = l.length + 1 := by
  induction l with
  | nil => rfl
  | cons q qs ih =>
    unfold insertByScore
    by_cases h : q.2 < p.2
    · simp [h]
    · rw [if_neg h]
      simp only [List.length_cons, ih]

theorem pairwise_sortByScoreDesc {K : Type} [LinearOrder K] (l : List (Nat × K)) :
    (sortByScoreDesc l).Pairwise (fun a b => b.2 ≤ a.2) := by
  induction l with
  | nil => exact List.Pairwise.nil
  | cons p l ih => exact pairwise_insertByScore p _ ih

theorem length_sortByScoreDesc {K : Type} [LinearOrder K] (l : List (Nat × K)) :
    (sortByScoreDesc l).length = l.length := by
  induction l with
  | nil => rfl
  | cons p l ih =>
    show (insertByScore p (sortByScoreDesc l)).length = l.length + 1
    rw [length_insertByScore, ih]

/-- C8: every `search_similar` result respects the score threshold, at
most `min(topK, index size)` results are returned, and the scores are
non-increasing in list order. -/
theorem claim8_search_contract {K : Type} [LinearOrder K] [Mul K] [AddCommMonoid K]
    (normalize : List (List K) → List (List K))
    (embedQuery : String → Option (List K))
    (s : IndexState (List K)) (query : String) (topK : Nat) (threshold : K)
    (l : List (String × K))
    (h : searchSimilar normalize embedQuery s query topK threshold = some l) :
    (∀ p ∈ l, threshold ≤ p.2) ∧
    l.length ≤ min topK (indexSize s) ∧
    l.Pairwise (fun a b => b.2 ≤ a.2) := by
  unfold searchSimilar at h
  cases hidx : s.index with
  | none =>
    rw [hidx] at h
    have hl : l = [] := (Option.some_injective _ h).symm
    subst hl
    exact ⟨by simp, by simp, List.Pairwise.nil⟩
  | some vecs =>
    rw [hidx] at h
    dsimp only at h
    by_cases hlen : vecs.length = 0
    · rw [if_pos hlen] at h
      have hl : l = [] := (Option.some_injective _ h).symm
      subst hl
      exact ⟨by simp, by simp, List.Pairwise.nil⟩
    · rw [if_neg hlen] at h
      cases hq : embedQuery query with
      | none =>
        rw [hq] at h
        cases h
      | some qe =>
        rw [hq] at h
        have hl := (Option.some_injective _ h).symm
        have hsize : indexSize s = vecs.length := by
          unfold indexSize
          rw [hidx]
        subst hl
        refine ⟨?_, ?_, ?_⟩
        · intro p hp
          obtain ⟨q, hq2, hpe⟩ := List.mem_map.mp hp
          have := (List.mem_filter.mp hq2).2
          rw [← hpe]
          exact of_decide_eq_true this
        · rw [List.length_map]
          calc (List.filter _ _).length
              ≤ (List.take (min topK vecs.length)
                  (sortByScoreDesc (vecs.enum.map
                    (fun p => (p.1, dot ((normalize [qe]).headD []) p.2))))).length :=
                List.length_filter_le _ _
            _ ≤ min topK vecs.length := List.length_take_le _ _
            _ = min topK (indexSize s) := by rw [hsize]
        · refine List.pairwise_map.mpr ?_
          refine List.Pairwise.sublist (List.filter_sublist _) ?_
          refine List.Pairwise.sublist (List.take_sublist _ _) ?_
          exact pairwise_sortByScoreDesc _

/-- C8 witness: concrete two-vector index over the integers; the result
respects threshold 0, holds at most two entries, and is score-sorted. -/
theorem claim8_witness :
    (∀ p ∈ ([("b", 2), ("a", 1)] : List (String × ℤ)), (0 : ℤ) ≤ p.2) ∧
    ([("b", 2), ("a", 1)] : List (String × ℤ)).length
      ≤ min 5 (indexSize (⟨some [[1], [2]], ["a", "b"], []⟩ : IndexState (List ℤ))) ∧
    ([("b", 2), ("a", 1)] : List (String × ℤ)).Pairwise (fun a b => b.2 ≤ a.2) :=
  claim8_search_contract id (fun _ => some [1]) ⟨some [[1], [2]], ["a", "b"], []⟩
    "q" 5 0 [("b", 2), ("a", 1)] (by decide)

theorem bang_isEmpty_eq_true {l : List String} : ((!l.isEmpty) = true) ↔ l ≠ [] := by
  cases l <;> simp

theorem mem_foldl_filter (ls : List (List String)) (acc : List String) (x : String) :
    x ∈ ls.foldl (fun a l2 => a.filter (fun y => l2.contains y)) acc ↔
      x ∈ acc ∧ ∀ l2 ∈ ls, x ∈ l2 := by
  induction ls generalizing acc with
  | nil => simp
  | cons l ls ih =>
    simp only [List.foldl_cons, ih, List.mem_filter, List.mem_cons]
    constructor
    · rintro ⟨⟨hacc, hl⟩, hls⟩
      refine ⟨hacc, fun l2 hl2 => ?_⟩
      rcases hl2 with h | h
      · subst h
        simpa using hl
      · exact hls l2 h
    · rintro ⟨hacc, hall⟩
      exact ⟨⟨hacc, by simpa using hall l (Or.inl rfl)⟩,
        fun l2 hl2 => hall l2 (Or.inr hl2)⟩

/-- C3 counterexample: a tool that ran and returned an empty result set
does NOT force an empty final result: the supervisor skips empty sets,
and the ReAct agent forgets an empty first result. -/
theorem claim3_counterexample :
    supervisorMerge [["A"], []] ≠ [] ∧ processToolFold [[], ["A"]] ≠ [] := by
  decide

/-- C3 (amended): the supervisor merge intersects exactly the NON-EMPTY
result sets among the tool outputs: an identifier is in the final set iff
some tool returned a non-empty set and the identifier is in every
non-empty returned set; a tool that ran and returned an empty set is
skipped rather than intersected in. -/
theorem claim3_merge_rule (outputs : List (List String)) (x : String) :
    x ∈ supervisorMerge outputs ↔
      ((∃ l ∈ outputs, l ≠ []) ∧ ∀ l ∈ outputs, l ≠ [] → x ∈ l) := by
  unfold supervisorMerge
  cases hc : outputs.filter (fun l => !l.isEmpty) with
  | nil =>
    have hall : ∀ l ∈ outputs, l = [] := by
      intro l hl
      by_contra hlne
      have : l ∈ outputs.filter (fun l => !l.isEmpty) :=
        List.mem_filter.mpr ⟨hl, bang_isEmpty_eq_true.mpr hlne⟩
      rw [hc] at this
      cases this
    simp only [List.not_mem_nil, false_iff]
    rintro ⟨⟨l, hl, hlne⟩, _⟩
    exact hlne (hall l hl)
  | cons hd tl =>
    constructor
    · intro hx
      have hx2 := (mem_foldl_filter tl hd x).mp hx
      have hex : ∃ l ∈ outputs, l ≠ [] := by
        have hhd : hd ∈ outputs.filter (fun l => !l.isEmpty) := by
          rw [hc]
          exact List.mem_cons_self hd tl
        have := List.mem_filter.mp hhd
        exact ⟨hd, this.1, bang_isEmpty_eq_true.mp this.2⟩
      refine ⟨hex, fun l hl hlne => ?_⟩
      have hmem : l ∈ outputs.filter (fun l => !l.isEmpty) :=
        List.mem_filter.mpr ⟨hl, bang_isEmpty_eq_true.mpr hlne⟩
      rw [hc] at hmem
      rcases List.mem_cons.mp hmem with h | h
      · subst h
        exact hx2.1
      · exact hx2.2 l h
    · rintro ⟨hex, hall⟩
      have hof : ∀ l ∈ outputs.filter (fun l => !l.isEmpty), x ∈ l := by
        intro l hl
        have := List.mem_filter.mp hl
        exact hall l this.1 (bang_isEmpty_eq_true.mp this.2)
      refine (mem_foldl_filter tl hd x).mpr ⟨?_, ?_⟩
      · exact hof hd (by rw [hc]; exact List.mem_cons_self hd tl)
      · intro l2 hl2
        exact hof l2 (by rw [hc]; exact List.mem_cons_of_mem hd hl2)

/-- C5 counterexample: in the supervisor variant the intersection with an
empty filter match set is skipped, so the result is the unfiltered
candidate set instead of the empty set the claim requires. -/
theorem claim5_counterexample :
    supervisorMerge [["A", "B", "C"], []] = ["A", "B", "C"] ∧
    supervisorMerge [["A", "B", "C"], []] ≠ [] := by
  decide

/-- C5 (amended): in the search-agent pipeline (and the specialist and
ReAct variants, which use the same list comprehension) the filter
intersection yields exactly the candidates that are in the filter match
set, in the candidate list order (it is a sublist of the candidates,
never re-sorted); in particular [A,B,C] intersected with {B,C,D} yields
[B,C].  The supervisor variant instead skips empty match sets and returns
an unordered set (see the C3 merge rule). -/
theorem claim5_filter_intersection (c f : List String) :
    (∀ x, x ∈ applyFilter c f ↔ x ∈ c ∧ x ∈ f) ∧
    List.Sublist (applyFilter c f) c ∧
    applyFilter ["A", "B", "C"] ["B", "C", "D"] = ["B", "C"] := by
  refine ⟨?_, List.filter_sublist _, by decide⟩
  intro x
  simp [applyFilter, List.mem_filter]

/-- C9 counterexample: planner output that parses as JSON but is not an
object (for instance a JSON array) escapes the fallback, which only
covers exceptions inside the try-block: `search_plan.get("filters", {})`
then raises AttributeError after the vector-search step and the pipeline
aborts instead of completing. -/
theorem claim9_counterexample :
    searchAgentQuery (K := ℚ) id (fun _ => some []) (fun _ => some [])
      (fun _ => PlannerResult.parsed PyVal.pyOther) (fun _ => []) (fun _ => [])
      [] ⟨none, [], []⟩ "hi" = none := rfl

/-- C9 (amended): when the planner raises or its output fails JSON
parsing, the pipeline behaves exactly as if the planner had returned the
fallback plan (semantic query = the raw input, no filters), and it
completes without error whenever the retrieval collaborators succeed.
Planner output that parses as JSON but is not an object still crashes the
pipeline (see the counterexample). -/
theorem claim9_planner_fallback {K : Type} [LinearOrderedField K]
    (normalize : List (List K) → List (List K))
    (embedBatch : List String → Option (List (List K)))
    (embedQuery : String → Option (List K))
    (planner : String → PlannerResult)
    (sevF catF : String → List String)
    (reports : List Report) (s : IndexState (List K)) (query : String)
    (hfail : planner query = PlannerResult.failure) :
    searchAgentQuery normalize embedBatch embedQuery planner sevF catF reports s query
      = searchAgentQuery normalize embedBatch embedQuery
          (fun q => PlannerResult.parsed (fallbackPlan q)) sevF catF reports s query ∧
    (∀ (n : Nat) (l : List (String × K)),
      (buildIndex (List K) normalize embedBatch reports false s).ret = some n →
      searchSimilar normalize embedQuery
          (buildIndex (List K) normalize embedBatch reports false s).state query 15
          (1 / 2 : K) = some l →
      (searchAgentQuery normalize embedBatch embedQuery planner sevF catF
        reports s query).isSome = true) := by
  constructor
  · simp only [searchAgentQuery]
    rw [hfail]
  · intro n l hb hs
    simp only [searchAgentQuery]
    rw [hfail, hb, hs]
    rfl

/-- C9 witness: concrete run with a failing planner and succeeding
retrieval collaborators; the pipeline completes. -/
theorem claim9_witness :
    (searchAgentQuery (K := ℚ) id (fun _ => some []) (fun _ => some [])
      (fun _ => PlannerResult.failure) (fun _ => []) (fun _ => []) []
      ⟨none, [], []⟩ "hi").isSome = true :=
  (claim9_planner_fallback id (fun _ => some []) (fun _ => some [])
    (fun _ => PlannerResult.failure) (fun _ => []) (fun _ => []) []
    ⟨none, [], []⟩ "hi" rfl).2 0 [] rfl rfl

theorem sumSq_nonneg (v : List ℝ) : 0 ≤ sumSq v := by
  unfold sumSq
  refine List.sum_nonneg ?_
  intro x hx
  obtain ⟨y, hy, he⟩ := List.mem_map.mp hx
  rw [← he]
  exact mul_self_nonneg y

theorem l2norm_eq_zero_iff (v : List ℝ) : l2norm v = 0 ↔ sumSq v = 0 :=
  Real.sqrt_eq_zero (sumSq_nonneg v)

theorem eq_zero_of_sumSq_eq_zero {v : List ℝ} (h : sumSq v = 0) :
    ∀ x ∈ v, x = 0 := by
  induction v with
  | nil =>
    intro x hx
    cases hx
  | cons a l ih =>
    unfold sumSq at h
    rw [List.map_cons, List.sum_cons] at h
    have h1 : 0 ≤ a * a := mul_self_nonneg a
    have h2 : 0 ≤ sumSq l := sumSq_nonneg l
    unfold sumSq at h2
    have ha : a * a = 0 := by linarith
    have hl : sumSq l = 0 := by unfold sumSq; linarith
    intro x hx
    rcases List.mem_cons.mp hx with h3 | h3
    · rw [h3]
      exact mul_self_eq_zero.mp ha
    · exact ih hl x h3

theorem sumSq_map_div (v : List ℝ) (d : ℝ) :
    sumSq (v.map (fun x => x / d)) = sumSq v / (d * d) := by
  induction v with
  | nil => simp [sumSq]
  | cons a l ih =>
    unfold sumSq at ih ⊢
    simp only [List.map_cons, List.sum_cons]
    rw [div_mul_div_comm, ih, add_div]

theorem l2norm_normalizeRow {v : List ℝ} (h : l2norm v ≠ 0) :
    l2norm (normalizeRow v) = 1 := by
  have hS : sumSq v ≠ 0 := fun h0 => h ((l2norm_eq_zero_iff v).mpr h0)
  have hsq : l2norm v * l2norm v = sumSq v := Real.mul_self_sqrt (sumSq_nonneg v)
  unfold normalizeRow
  rw [if_neg h]
  show Real.sqrt (sumSq (v.map fun x => x / l2norm v)) = 1
  rw [sumSq_map_div, hsq, div_self hS, Real.sqrt_one]

theorem normalizeRow_of_zero {v : List ℝ} (h : l2norm v = 0) :
    normalizeRow v = List.replicate v.length 0 := by
  have hz : ∀ x ∈ v, x = 0 := eq_zero_of_sumSq_eq_zero ((l2norm_eq_zero_iff v).mp h)
  unfold normalizeRow
  rw [if_pos h]
  refine List.eq_replicate_iff.mpr ⟨by rw [List.length_map], ?_⟩
  intro b hb
  obtain ⟨a, ha, he⟩ := List.mem_map.mp hb
  rw [← he, hz a ha, zero_div]

/-- C7: every vector produced by `normalize_vectors` is the normalization
of an input row; a row of nonzero norm comes out with L2 norm exactly 1
and a zero row is clamped to the zero vector (division is by 1, never by
0).  Moreover every vector `build_index` inserts into the real index has
passed through `normalize_vectors`: on any run that made an embedding
call, the resulting index is a previous prefix plus `normalizeVectors` of
the embedding result. -/
theorem claim7_normalization :
    (∀ (m : List (List ℝ)) (w : List ℝ), w ∈ normalizeVectors m →
      ∃ v, v ∈ m ∧ w = normalizeRow v ∧
        (l2norm v ≠ 0 → l2norm w = 1) ∧
        (l2norm v = 0 → w = List.replicate v.length 0)) ∧
    (∀ (e : List String → Option (List (List ℝ))) (reports : List Report)
       (fr : Bool) (s : IndexState (List ℝ)) (vecs : List (List ℝ)),
       (buildIndexReal e reports fr s).embedded ≠ [] →
       e ((buildIndexReal e reports fr s).embedded) = some vecs →
       ∃ prev, (buildIndexReal e reports fr s).state.index
         = some (prev ++ normalizeVectors vecs)) := by
  constructor
  · intro m w hw
    obtain ⟨v, hv, he⟩ := List.mem_map.mp hw
    refine ⟨v, hv, he.symm, ?_, ?_⟩
    · intro h
      rw [← he]
      exact l2norm_normalizeRow h
    · intro h
      rw [← he]
      exact normalizeRow_of_zero h
  · intro e reports fr s vecs hne2 he2
    by_cases hne : reports = []
    · rw [hne] at hne2
      unfold buildIndexReal at hne2
      rw [buildIndex_nil] at hne2
      exact absurd rfl hne2
    · unfold buildIndexReal at hne2 he2 ⊢
      by_cases hreb : fr = true ∨ s.index = none
      · have hemb : (buildIndex (List ℝ) normalizeVectors e reports fr s).embedded
            = reports.map buildReportText := by
          rw [buildIndex_rebuild hne hreb]
          cases he3 : e (reports.map buildReportText) with
          | none => rfl
          | some vs => rfl
        rw [hemb] at he2
        rw [buildIndex_rebuild hne hreb, he2]
        exact ⟨[], by simp⟩
      · push_neg at hreb
        obtain ⟨hfr, hsome⟩ := hreb
        obtain ⟨vecs0, hvecs0⟩ := Option.ne_none_iff_exists.mp hsome
        have hfr2 : fr = false := Bool.not_eq_true fr |>.mp hfr
        subst hfr2
        by_cases hd : dirtyRecords s.textCache false reports = []
        · rw [buildIndex_noop hne hd (by rw [← hvecs0]; rfl)] at hne2
          exact absurd rfl hne2
        · have hemb : (buildIndex (List ℝ) normalizeVectors e reports false s).embedded
              = (dirtyRecords s.textCache false reports).map (fun p => p.2) := by
            rw [buildIndex_incremental hne hvecs0.symm hd]
            cases he3 : e ((dirtyRecords s.textCache false reports).map (fun p => p.2)) with
            | none => rfl
            | some vs => rfl
          rw [hemb] at he2
          rw [buildIndex_incremental hne hvecs0.symm hd, he2]
          exact ⟨vecs0, rfl⟩

/-- C7 witness: the concrete unit row [1, 0] has nonzero norm and its
normalization has L2 norm 1. -/
theorem claim7_witness : l2norm (normalizeRow [(1 : ℝ), 0]) = 1 := by
  obtain ⟨v, hv, hw, h1, h0⟩ := claim7_normalization.1 [[(1 : ℝ), 0]]
    (normalizeRow [(1 : ℝ), 0]) (by simp [normalizeVectors])
  have hv2 : v = [(1 : ℝ), 0] := by simpa using hv
  rw [hv2] at h1
  refine h1 ?_
  have hS : sumSq [(1 : ℝ), 0] = 1 := by norm_num [sumSq]
  unfold l2norm
  rw [hS, Real.sqrt_one]
  exact one_ne_zero

end AgentBackend
